import Mathlib

/-!
Verification development for the `plus-express` repository: a request-validation
and OpenAPI-documentation layer over Express.

The development shallowly embeds the registry + mount-composition subsystem:

* `src/registry.ts` (`createRegistry`): schema merging (`mergedQuerySchema`,
  `mergedHeaderSchema`, `mergedResponses`), the OpenAPI path translation
  (`openApiPath`), and the validation middleware returned by `createEndpoint`
  (`endpointMiddleware`).
* `src/utils.ts`: `normalizeMountPath` and the calling-convention dispatch of
  `enhanceHttpMethods` (`enhancedCall`).
* `src/express-plus.ts` / `src/router-plus.ts`: the instance-scoped mount
  registries (`appUse`, `routerUse`) and the document-generation walk
  (`generateOpenAPIDocument`).

The Zod validation library is the external schema collaborator; it is embedded
as a small executable language of field validators (`SchemaF`) with Zod's
documented object semantics: objects validate declared fields, strip unknown
keys, collect all issues of a parse in one error list, `.merge` is last-writer
wins per field and `.partial()` makes every declared field optional.
-/

namespace PlusExpress

/-- JSON-ish runtime values travelling through request validation. -/
inductive Val where
  | vstr (s : String)
  | vnum (n : Int)
  | vnull
deriving Repr, DecidableEq

instance : Inhabited Val := ⟨Val.vnull⟩

/-- A single Zod field validator, embedded as a tiny executable language
(the schema library is an external collaborator; only its parse behaviour
matters to the code under verification). -/
inductive SchemaF where
  | anyV
  | isStr
  | isNum
  | coerceNum
  | failWith (msg : String)
deriving Repr, DecidableEq

/-- Digit-run parser backing the numeric coercion of the schema collaborator. -/
def digitsToNat : Nat → List Char → Option Nat
  | acc, [] => some acc
  | acc, c :: t => if c.isDigit then digitsToNat (10 * acc + (c.toNat - 48)) t else none

/-- Decimal string to integer, the coercion `z.coerce.number()` applies to
string inputs (non-empty digit strings only in this model). -/
def strToInt? (str : String) : Option Int :=
  match str.data with
  | [] => none
  | l => (digitsToNat 0 l).map Int.ofNat

/-- Run one field validator on a value: Zod `schema.parse` at a single field,
returning the parsed/coerced value or a non-empty list of issues. -/
def evalS : SchemaF → Val → Except (List String) Val
  | .anyV, v => .ok v
  | .isStr, .vstr s => .ok (.vstr s)
  | .isStr, _ => .error ["Expected string"]
  | .isNum, .vnum n => .ok (.vnum n)
  | .isNum, _ => .error ["Expected number"]
  | .coerceNum, .vnum n => .ok (.vnum n)
  | .coerceNum, .vstr s =>
      match strToInt? s with
      | some n => .ok (.vnum n)
      | none => .error ["Expected number"]
  | .coerceNum, _ => .error ["Expected number"]
  | .failWith m, _ => .error [m]

/-- A declared field of a Zod object schema: its key, its validator, and
whether it is optional (Zod `.optional()` / the effect of `.partial()`). -/
structure Field where
  name : String
  sch : SchemaF
  opt : Bool
deriving Repr, DecidableEq

/-- A Zod object schema (`z.object(shape)`), as its ordered list of fields. -/
abbrev ObjSchema := List Field

/-- First binding for a key in a JS-object-like association list. -/
def lookupKV {α : Type} : List (String × α) → String → Option α
  | [], _ => none
  | (k, v) :: t, n => if k = n then some v else lookupKV t n

/-- First declared field with the given name in an object schema. -/
def findField : ObjSchema → String → Option Field
  | [], _ => none
  | f :: t, n => if f.name = n then some f else findField t n

/-- Validate the declared fields of a Zod object schema against an input
object, Zod-style: every declared field is checked (issues are collected in
declaration order), missing required fields are issues, missing optional
fields are skipped, unknown input keys are stripped from the output. -/
def parseFields : ObjSchema → List (String × Val) → List String × List (String × Val)
  | [], _ => ([], [])
  | f :: rest, input =>
    let tailRes := parseFields rest input
    match lookupKV input f.name with
    | none =>
      if f.opt then tailRes
      else (("Required: " ++ f.name) :: tailRes.1, tailRes.2)
    | some v =>
      match evalS f.sch v with
      | .ok v2 => (tailRes.1, (f.name, v2) :: tailRes.2)
      | .error e => (e ++ tailRes.1, tailRes.2)

/-- Zod `objectSchema.parse input`: succeed with the parsed declared fields
when no field produced an issue, otherwise throw the collected issue list. -/
def parseObj (s : ObjSchema) (input : List (String × Val)) :
    Except (List String) (List (String × Val)) :=
  let res := parseFields s input
  if res.1.isEmpty then .ok res.2 else .error res.1

/-- Zod `schema.partial()`: every declared field becomes optional. -/
def allOptional (s : ObjSchema) : ObjSchema :=
  s.map (fun f => { f with opt := true })

/-- Zod `a.merge(b)`: the merged shape is `\x7b...a.shape, ...b.shape\x7d` —
`b`'s definition wins for a key declared in both (at `a`'s key position),
and `b`'s new keys are appended. -/
def mergeObj (a b : ObjSchema) : ObjSchema :=
  a.map (fun f => (findField b f.name).getD f)
    ++ b.filter (fun g => (findField a g.name).isNone)

/-- An OpenAPI response object attached to one status code (opaque metadata:
only identity matters to the merge logic). -/
structure RespObj where
  description : String
deriving Repr, DecidableEq

/-- Merging of query schemas in `createEndpoint` (registry.ts 121-126):
`defaultQuerySchema` when the route declares no query schema, otherwise
`defaultQuerySchema.merge(query)`. -/
def mergedQuerySchema (defaultQ : ObjSchema) (routeQ : Option ObjSchema) : ObjSchema :=
  match routeQ with
  | none => defaultQ
  | some q => mergeObj defaultQ q

/-- Merging of header schemas in `createEndpoint` (registry.ts 128-133). -/
def mergedHeaderSchema (defaultH : ObjSchema) (routeH : Option ObjSchema) : ObjSchema :=
  match routeH with
  | none => defaultH
  | some h => mergeObj defaultH h

/-- JS object assignment `m[k] = v`: replace the value at an existing key in
place, or append a new key. -/
def setKey (m : List (String × RespObj)) (k : String) (v : RespObj) :
    List (String × RespObj) :=
  if m.any (fun p => p.1 = k) then
    m.map (fun p => if p.1 = k then (k, v) else p)
  else m ++ [(k, v)]

/-- Merging of responses in `createEndpoint` (registry.ts 135-143): start from
a copy of `defaultResponses`, then assign each route-specific entry key by key. -/
def mergedResponses (defaultR : List (String × RespObj))
    (routeR : Option (List (String × RespObj))) : List (String × RespObj) :=
  match routeR with
  | none => defaultR
  | some rs => rs.foldl (fun acc kv => setKey acc kv.1 kv.2) defaultR

/-- Characters matched by the regex class `\w`. -/
def wordChar (c : Char) : Bool := c.isAlphanum || c = '_'

/-- Start of a framework path parameter: `:` or the wildcard prefix `*`. -/
def isParamStart (c : Char) : Bool := c = ':' || c = '*'

/-- Does the regex `[:*](\w+)` match at this position: a parameter-start
character whose successor is a word character? -/
def paramMatch (c : Char) (rest : List Char) : Bool :=
  isParamStart c && (match rest with | r :: _ => wordChar r | [] => false)

/-- Character-level version of `path.replace(/[:*](\w+)/g, brace-wrapped)`
from registry.ts 119: leftmost, non-overlapping matches of a `:`/`*` followed
by a maximal non-empty run of word characters are rewritten to the name
wrapped in braces; everything else is copied. The extra fuel argument (always
called with the list's length, which suffices since every step strictly
shortens the list) keeps the recursion structural. -/
def translateGo : Nat → List Char → List Char
  | 0, _ => []
  | _ + 1, [] => []
  | n + 1, c :: rest =>
    if paramMatch c rest then
      '{' :: (rest.takeWhile wordChar ++ '}' :: translateGo n (rest.dropWhile wordChar))
    else
      c :: translateGo n rest

/-- The OpenAPI path key registered for a route path (registry.ts 119). -/
def openApiPath (p : String) : String := ⟨translateGo p.data.length p.data⟩

/-- Parameter names of a framework-syntax path: the `\w+` runs introduced by
`:` or `*` (the capture groups of the translation regex), in order; same
fuel discipline as `translateGo`. -/
def paramGo : Nat → List Char → List (List Char)
  | 0, _ => []
  | _ + 1, [] => []
  | n + 1, c :: rest =>
    if paramMatch c rest then
      rest.takeWhile wordChar :: paramGo n (rest.dropWhile wordChar)
    else
      paramGo n rest

/-- Brace-delimited names of an OpenAPI path key, in order. -/
def braceNamesAux : List Char → List (List Char)
  | [] => []
  | c :: rest =>
    if c = '{' then
      rest.takeWhile (fun d => d ≠ '}')
        :: braceNamesAux ((rest.dropWhile (fun d => d ≠ '}')).drop 1)
    else
      braceNamesAux rest
termination_by l => l.length
decreasing_by
  · simp only [List.length_cons]
    exact Nat.lt_succ_of_le (Nat.le_trans
      (List.Sublist.length_le (List.drop_sublist _ _))
      (List.Sublist.length_le (List.dropWhile_sublist _)))
  · simp

/-- Parameter names of a route path as strings. -/
def paramNames (p : String) : List String :=
  (paramGo p.data.length p.data).map (fun l => ⟨l⟩)

/-- Brace-delimited parameter names of an OpenAPI path key as strings. -/
def braceNames (p : String) : List String :=
  (braceNamesAux p.data).map (fun l => ⟨l⟩)

/-- Mount-path normalization (utils.ts `normalizeMountPath`): prefix a `/`
when missing, then strip a trailing `/` unless the whole path is just `/`
(JS `startsWith`/`endsWith`/`slice(0, -1)` expressed on the character list). -/
def normalizeMountPath (mountPath : String) : String :=
  let p1 : String :=
    if mountPath.data.headD ' ' = '/' then mountPath else ⟨'/' :: mountPath.data⟩
  if p1.data.getLast? = some '/' ∧ p1.data.length > 1 then ⟨p1.data.dropLast⟩ else p1

/-- The `parsed` namespace attached to a validated request (types.ts
`ValidatedRequest`): post-validation body/params/query/headers. -/
structure Parsed where
  body : Val
  params : List (String × Val)
  query : List (String × Val)
  headers : List (String × Val)
deriving Repr, DecidableEq

instance : Inhabited Parsed := ⟨⟨.vnull, [], [], []⟩⟩

/-- An in-flight request as the middleware sees it: raw body/params/query/
headers plus the optional `parsed` namespace. -/
structure Req where
  body : Val
  params : List (String × Val)
  query : List (String × Val)
  headers : List (String × Val)
  parsed : Option Parsed
deriving Repr, DecidableEq

/-- Shallow `extend(target, source)` (the npm `extend` package, also the
semantics of the object spread `\x7b...target, ...source\x7d`): keys of
`source` overwrite existing keys of `target` in place and new keys are
appended. The deep variant `extend(true, ...)` used for the query coincides
with the shallow one on the flat values of this model. -/
def jsExtend (target source : List (String × Val)) : List (String × Val) :=
  target.map (fun kv => ((kv.1, (lookupKV source kv.1).getD kv.2) : String × Val))
    ++ source.filter (fun kv => (lookupKV target kv.1).isNone)

/-- Initialize the `parsed` object from the raw request fields if it does not
exist yet (registry.ts 169-177). -/
def initParsed (req : Req) : Req :=
  match req.parsed with
  | some _ => req
  | none => { req with parsed := some ⟨req.body, req.params, req.query, req.headers⟩ }

/-- Body validation (registry.ts 179-183): when a body schema is provided,
parse the raw body; on success overwrite both `parsed.body` and `req.body`
with the parsed value; a parse failure throws to the catch with the current
(already mutated) request. -/
def stepBody (bodyS : Option SchemaF) (req : Req) : Except (List String × Req) Req :=
  match bodyS with
  | none => .ok req
  | some bs =>
    match evalS bs req.body with
    | .ok v =>
        .ok { req with body := v, parsed := some { (req.parsed.getD default) with body := v } }
    | .error e => .error (e, req)

/-- URL-params validation (registry.ts 185-189): when a params schema is
provided, parse the raw params; on success set `parsed.params` and
`extend(req.params, parsed.params)`. -/
def stepParams (paramsS : Option ObjSchema) (req : Req) : Except (List String × Req) Req :=
  match paramsS with
  | none => .ok req
  | some ps =>
    match parseObj ps req.params with
    | .ok v =>
        .ok { req with params := jsExtend req.params v,
                       parsed := some { (req.parsed.getD default) with params := v } }
    | .error e => .error (e, req)

/-- Query validation (registry.ts 191-193): always parse the query against the
merged query schema; on success set `parsed.query` and
`extend(true, req.query, parsed.query)`. -/
def stepQuery (mergedQ : ObjSchema) (req : Req) : Except (List String × Req) Req :=
  match parseObj mergedQ req.query with
  | .ok v =>
      .ok { req with query := jsExtend req.query v,
                     parsed := some { (req.parsed.getD default) with query := v } }
  | .error e => .error (e, req)

/-- Header validation (registry.ts 195-200): always parse the headers against
the merged header schema made partial (every declared field optional); on
success set `parsed.headers` and re-spread the validated headers on top of the
raw ones. -/
def stepHeaders (mergedH : ObjSchema) (req : Req) : Except (List String × Req) Req :=
  match parseObj (allOptional mergedH) req.headers with
  | .ok v =>
      .ok { req with headers := jsExtend req.headers v,
                     parsed := some { (req.parsed.getD default) with headers := v } }
  | .error e => .error (e, req)

/-- The try-block of the validation middleware: the four dimensions run in
the fixed order body, params, query, headers; the first throw escapes with
the in-place-mutated request. -/
def runSteps (bodyS : Option SchemaF) (paramsS : Option ObjSchema)
    (mergedQ mergedH : ObjSchema) (req : Req) : Except (List String × Req) Req :=
  match stepBody bodyS req with
  | .error er => .error er
  | .ok r2 =>
    match stepParams paramsS r2 with
    | .error er => .error er
    | .ok r3 =>
      match stepQuery mergedQ r3 with
      | .error er => .error er
      | .ok r4 => stepHeaders mergedH r4

/-- Outcome of the validation middleware: either control passes to the next
handler with the validated request, or a structured error object with a
status and an `errors` payload diverts to the error path. -/
inductive MWResult where
  | next (req : Req)
  | err (status : Nat) (errors : List String) (req : Req)
deriving Repr, DecidableEq

/-- The options of one route definition (types.ts `EndpointOptions`),
restricted to the fields the validation middleware consumes. -/
structure EndpointOptions where
  body : Option SchemaF
  params : Option ObjSchema
  query : Option ObjSchema
  headers : Option ObjSchema
  responses : Option (List (String × RespObj))
  path : Option String
deriving Repr, DecidableEq

/-- The mutable defaults held by a registry (registry.ts 81-83). -/
structure RegistryDefaults where
  defaultQuerySchema : ObjSchema
  defaultHeaderSchema : ObjSchema
  defaultResponses : List (String × RespObj)
deriving Repr, DecidableEq

/-- The request middleware returned by `createEndpoint` (registry.ts 164-211):
initialize `parsed`, run the four validation dimensions in order inside the
try block, and on any throw produce the standardized error with status 400
and the validator's issue list as `errors`. -/
def endpointMiddleware (d : RegistryDefaults) (opts : EndpointOptions) (req0 : Req) :
    MWResult :=
  match runSteps opts.body opts.params
      (mergedQuerySchema d.defaultQuerySchema opts.query)
      (mergedHeaderSchema d.defaultHeaderSchema opts.headers)
      (initParsed req0) with
  | .ok r => .next r
  | .error (e, r) => .err 400 e r

/-- One entry of an OpenAPIRegistry's `definitions` array: a registered route
(method + OpenAPI path key; further metadata is opaque) or a non-route
definition such as a component or security scheme. -/
inductive Def where
  | route (method : String) (path : String)
  | component (name : String)
deriving Repr, DecidableEq

/-- An enhanced router (`routerPlus`): its registry's raw definitions and its
instance-scoped `nestedMountRegistry` of (normalized path, child router index)
records (router-plus.ts 93-94, 127-148). -/
structure RouterSt where
  defs : List Def
  nested : List (String × Nat)
deriving Repr, DecidableEq

instance : Inhabited RouterSt := ⟨⟨[], []⟩⟩

/-- An enhanced application (`expressPlus`): its registry's raw definitions
and its instance-scoped `mountRegistry` of (normalized path, mounted router
index) records (express-plus.ts 22, 34-54). -/
structure AppSt where
  baseDefs : List Def
  mounts : List (String × Nat)
deriving Repr, DecidableEq

instance : Inhabited AppSt := ⟨⟨[], []⟩⟩

/-- A process containing any number of enhanced routers and applications.
Routers are referenced by index, modelling the JS object references that a
Mount Record holds to a child router's registry. -/
structure World where
  routers : List RouterSt
  apps : List AppSt
deriving Repr, DecidableEq

/-- `routerInstance.use(path, child)` for a RouterPlus child (router-plus.ts
128-148): append a Mount Record with the normalized path to the parent
router's own `nestedMountRegistry`. The path-less call `use(child)` is the
same with path `/`. -/
def routerUse (w : World) (parent : Nat) (mountPath : String) (child : Nat) : World :=
  let r := w.routers.getD parent default
  let r2 := { r with nested := r.nested ++ [(normalizeMountPath mountPath, child)] }
  { w with routers := w.routers.set parent r2 }

/-- `app.use(path, child)` for a RouterPlus child (express-plus.ts 34-54):
append a Mount Record with the normalized path to the application's own
`mountRegistry`. The path-less call `app.use(child)` records path `/`,
which equals `normalizeMountPath "/"`. -/
def appUse (w : World) (a : Nat) (mountPath : String) (child : Nat) : World :=
  let ap := w.apps.getD a default
  let ap2 := { ap with mounts := ap.mounts ++ [(normalizeMountPath mountPath, child)] }
  { w with apps := w.apps.set a ap2 }

/-- Route registration through an enhanced verb method on a router:
`createEndpoint` synchronously registers the route with its translated
OpenAPI path into that router's registry (registry.ts 118-161). -/
def registerRoute (w : World) (rid : Nat) (method rawPath : String) : World :=
  let r := w.routers.getD rid default
  let r2 := { r with defs := r.defs ++ [.route method (openApiPath rawPath)] }
  { w with routers := w.routers.set rid r2 }

/-- Path re-rooting performed by the document-generation walk (express-plus.ts
82-88): strip one leading slash from the child's relative route path, then
prefix the mount path, special-casing mount path `/`. -/
def adjustPath (mountPath routePath : String) : String :=
  let rp : String := if routePath.data.headD ' ' = '/' then ⟨routePath.data.tail⟩ else routePath
  if mountPath = "/" then "/" ++ rp else mountPath ++ "/" ++ rp

/-- The definitions that one walk of an application's `mountRegistry` adds to
the base registry (express-plus.ts 63-100): for every Mount Record, every
`route` definition of the mounted registry re-registered under its adjusted
path; non-route definitions are skipped, and a missing/malformed mounted
registry contributes nothing. -/
def mountAdds (routers : List RouterSt) (mounts : List (String × Nat)) : List Def :=
  mounts.flatMap (fun m =>
    (routers.getD m.2 default).defs.filterMap (fun d =>
      match d with
      | .route mth p => some (.route mth (adjustPath m.1 p))
      | .component _ => none))

/-- The overridden `registry.generateOpenAPIDocument` of an enhanced
application (express-plus.ts 57-104): re-register every mounted registry's
route definitions into the base registry (a persistent mutation of the base
store), then render the document from the base registry's definitions.
Returns the definitions the document is rendered from, plus the mutated
process state. -/
def generateOpenAPIDocument (w : World) (a : Nat) : List Def × World :=
  let ap := w.apps.getD a default
  let newDefs := ap.baseDefs ++ mountAdds w.routers ap.mounts
  (newDefs, { w with apps := w.apps.set a ({ ap with baseDefs := newDefs }) })

/-- The `paths` keys of the rendered OpenAPI document: the document is an
object keyed by path, so duplicate registrations collapse to one key. -/
def docPathKeys (defs : List Def) : Finset String :=
  (defs.filterMap (fun d => match d with | .route _ p => some p | .component _ => none)).toFinset

/-- The (method, path) operations of the rendered document: each path key
holds an object keyed by lowercase method. -/
def docRouteKeys (defs : List Def) : Finset (String × String) :=
  (defs.filterMap (fun d =>
    match d with | .route m p => some (m, p) | .component _ => none)).toFinset

/-- One argument of a JS verb-method call, classified the way
`enhanceHttpMethods` (utils.ts 16-50) inspects arguments: a plain object
(with its optional `path` field), an array, a RegExp, null, a string, a
handler function, or the validation middleware the wrapper inserts. -/
inductive JsArg where
  | obj (path : Option String)
  | arr
  | regexp
  | nullv
  | str (s : String)
  | func (id : Nat)
  | middleware (method : String) (path : String)
deriving Repr, DecidableEq

/-- The observable effect of one enhanced verb-method call: which
`createEndpoint` registrations ran, what argument list was delegated to the
native method (none if the call threw first), and whether it threw. -/
structure CallEffect where
  registered : List (String × String)
  delegated : Option (List JsArg)
  threw : Bool
deriving Repr, DecidableEq

/-- The wrapper installed by `enhanceHttpMethods` around one verb method
(utils.ts 20-50). Case 1: more than one argument with a plain object first —
a missing (or empty, hence falsy) `path` throws before any registration or
delegation, otherwise the endpoint is registered and the call is delegated as
`(path, validationMiddleware, handler, ...rest)`. Case 2: more than two
arguments with a string first and a plain object second. Anything else is
passed through untouched to the native method. -/
def enhancedCall (method : String) (args : List JsArg) : CallEffect :=
  match args with
  | .obj p :: a2 :: rest =>
    (match p with
     | some pathStr =>
       if pathStr = "" then ⟨[], none, true⟩
       else ⟨[(method, pathStr)],
             some (.str pathStr :: .middleware method pathStr :: a2 :: rest), false⟩
     | none => ⟨[], none, true⟩)
  | .str pathStr :: .obj _ :: a3 :: rest =>
    ⟨[(method, pathStr)],
     some (.str pathStr :: .middleware method pathStr :: a3 :: rest), false⟩
  | _ => ⟨[], some args, false⟩

/-- Does an argument list match Case 1 of the wrapper (options object first,
at least one further argument)? -/
def matchesCase1 : List JsArg → Bool
  | .obj _ :: _ :: _ => true
  | _ => false

/-- Does an argument list match Case 2 of the wrapper (string path first,
options object second, at least one further argument)? -/
def matchesCase2 : List JsArg → Bool
  | .str _ :: .obj _ :: _ :: _ => true
  | _ => false

/-! ### Claim C1 — nested mount composition -/

/-- Initial process for the C1 scenario: two fresh enhanced routers A (index
0) and B (index 1) and one fresh enhanced application (index 0). -/
def c1World : World := ⟨[⟨[], []⟩, ⟨[], []⟩], [⟨[], []⟩]⟩

/-- C1 scenario, registration first: B registers route `/x`, then A mounts B
at `/a`, then the application mounts A at `/api`. -/
def c1RouteFirst : World :=
  appUse (routerUse (registerRoute c1World 1 "get" "/x") 0 "/a" 1) 0 "/api" 0

/-- C1 scenario, mount first: A mounts B at `/a`, then B registers route
`/x`, then the application mounts A at `/api`. -/
def c1MountFirst : World :=
  appUse (registerRoute (routerUse c1World 0 "/a" 1) 1 "get" "/x") 0 "/api" 0

/-- C1: the claim fails on the code. In both registration orders the
generated document is rendered from an empty definitions list — it does not
contain the path `/api/a/x` (or any path at all): the document-generation
walk of express-plus.ts 57-104 reads only the route definitions stored
directly in each mounted router's own registry, and the Mount Records that
router-plus.ts 127-148 pushes into a router's `nestedMountRegistry` are never
read by anything, so B's route never reaches A's registry nor the document. -/
theorem nested_mount_route_dropped :
    (generateOpenAPIDocument c1RouteFirst 0).1 = [] ∧
    (generateOpenAPIDocument c1MountFirst 0).1 = [] ∧
    "/api/a/x" ∉ docPathKeys (generateOpenAPIDocument c1RouteFirst 0).1 ∧
    "/api/a/x" ∉ docPathKeys (generateOpenAPIDocument c1MountFirst 0).1 := by
  refine ⟨rfl, rfl, ?_, ?_⟩ <;> decide

/-! ### Claim C7 — mount-path normalization invariant -/

/-- C7: the claim fails on the code. `normalizeMountPath` strips only a
single trailing slash (`slice(0, -1)` runs once), so the caller-supplied
mount path `"/a//"` is stored as `"/a/"`, which still ends with `/` and is
not the root path — contradicting the invariant stated in the function's own
doc comment. -/
theorem normalizeMountPath_keeps_trailing_slash :
    normalizeMountPath "/a//" = "/a/" ∧
    "/a/" ≠ "/" ∧
    ("/a/").data.getLast? = some '/' := by
  refine ⟨?_, ?_, ?_⟩ <;> decide

/-! ### Claim C2 — document generation does not duplicate path keys -/

theorem getD_set_self {α : Type} (l : List α) (n : Nat) (x d : α) :
    ((l.set n x)[n]?).getD d = if n < l.length then x else d := by
  by_cases h : n < l.length
  · rw [List.getElem?_set_self h]
    simp [h]
  · rw [List.set_eq_of_length_le (Nat.le_of_not_lt h)]
    rw [List.getElem?_eq_none (Nat.le_of_not_lt h)]
    simp [h]

theorem getD_set_ne {α : Type} (l : List α) (m n : Nat) (x d : α) (h : m ≠ n) :
    ((l.set n x)[m]?).getD d = (l[m]?).getD d := by
  rw [List.getElem?_set_ne (Ne.symm h)]

theorem default_AppSt_eq : (default : AppSt) = ⟨[], []⟩ := rfl

theorem default_RouterSt_eq : (default : RouterSt) = ⟨[], []⟩ := rfl

theorem docPathKeys_append (l1 l2 : List Def) :
    docPathKeys (l1 ++ l2) = docPathKeys l1 ∪ docPathKeys l2 := by
  simp [docPathKeys, List.filterMap_append]

theorem docRouteKeys_append (l1 l2 : List Def) :
    docRouteKeys (l1 ++ l2) = docRouteKeys l1 ∪ docRouteKeys l2 := by
  simp [docRouteKeys, List.filterMap_append]

/-- Generating the document a second time renders from the first call's base
definitions with the mount walk's additions appended once more (the walk
re-registers into the base store on every call). -/
theorem generate_twice_defs (w : World) (a : Nat) :
    (generateOpenAPIDocument (generateOpenAPIDocument w a).2 a).1
      = (generateOpenAPIDocument w a).1
          ++ mountAdds w.routers ((w.apps.getD a default).mounts) := by
  by_cases h : a < w.apps.length
  · simp [generateOpenAPIDocument, getD_set_self, h]
  · have hd : (w.apps[a]?).getD (⟨[], []⟩ : AppSt) = ⟨[], []⟩ := by
      rw [List.getElem?_eq_none (Nat.le_of_not_lt h)]
      rfl
    simp [generateOpenAPIDocument, getD_set_self, h, default_AppSt_eq, hd, mountAdds]

/-- C2: for every registry state and application, two consecutive calls of
`generateOpenAPIDocument` without intervening mutation render documents with
the same set of `paths` keys (hence the same cardinality) and the same set of
(method, path) operations: the re-registration duplicates entries inside the
base store's definitions array, but the rendered document is keyed by path
and method, so no duplicate route entry appears for a pair already present. -/
theorem generateOpenAPIDocument_idempotent_paths (w : World) (a : Nat) :
    docRouteKeys (generateOpenAPIDocument (generateOpenAPIDocument w a).2 a).1
      = docRouteKeys (generateOpenAPIDocument w a).1 ∧
    (docPathKeys (generateOpenAPIDocument (generateOpenAPIDocument w a).2 a).1).card
      = (docPathKeys (generateOpenAPIDocument w a).1).card := by
  have hdefs := generate_twice_defs w a
  have hpk : docPathKeys (generateOpenAPIDocument (generateOpenAPIDocument w a).2 a).1
      = docPathKeys (generateOpenAPIDocument w a).1 := by
    rw [hdefs]
    show docPathKeys (((w.apps.getD a default).baseDefs
        ++ mountAdds w.routers ((w.apps.getD a default).mounts))
        ++ mountAdds w.routers ((w.apps.getD a default).mounts))
      = docPathKeys ((w.apps.getD a default).baseDefs
        ++ mountAdds w.routers ((w.apps.getD a default).mounts))
    simp [docPathKeys_append, Finset.union_assoc]
  refine ⟨?_, by rw [hpk]⟩
  rw [hdefs]
  show docRouteKeys (((w.apps.getD a default).baseDefs
      ++ mountAdds w.routers ((w.apps.getD a default).mounts))
      ++ mountAdds w.routers ((w.apps.getD a default).mounts))
    = docRouteKeys ((w.apps.getD a default).baseDefs
      ++ mountAdds w.routers ((w.apps.getD a default).mounts))
  simp [docRouteKeys_append, Finset.union_assoc]

/-! ### Claim C6 — Mount Records are instance-scoped -/

theorem mountAdds_congr (R1 R2 : List RouterSt)
    (h : ∀ i, (R1.getD i default).defs = (R2.getD i default).defs) :
    ∀ ms : List (String × Nat), mountAdds R1 ms = mountAdds R2 ms
  | [] => rfl
  | m :: t => by
      simp only [mountAdds, List.flatMap_cons]
      rw [h m.2]
      have ht := mountAdds_congr R1 R2 h t
      simp only [mountAdds] at ht
      rw [ht]

theorem routerUse_preserves_defs (w : World) (pr : Nat) (q : String) (d2 i : Nat) :
    (((routerUse w pr q d2).routers).getD i default).defs
      = (w.routers.getD i default).defs := by
  by_cases hip : i = pr
  · subst hip
    by_cases hlt : i < w.routers.length
    · simp [routerUse, List.getD_eq_getElem?_getD, getD_set_self, hlt]
    · simp only [routerUse, List.getD_eq_getElem?_getD, getD_set_self, hlt, if_false]
      rw [List.getElem?_eq_none (Nat.le_of_not_lt hlt)]
      rfl
  · simp [routerUse, List.getD_eq_getElem?_getD, List.getElem?_set_ne (Ne.symm hip)]

/-- C6: Mount Records are instance-scoped. For two distinct enhanced
applications in one process, recording a mount into application `b` (or into
any router's `nestedMountRegistry`) leaves the set of path keys of the
document generated from application `a`'s registry unchanged: document
generation walks only the Mount Records held by `a` itself. -/
theorem mount_records_instance_scoped (w : World) (a b : Nat) (hab : a ≠ b)
    (p q : String) (c pr d2 : Nat) :
    docPathKeys (generateOpenAPIDocument (appUse w b p c) a).1
      = docPathKeys (generateOpenAPIDocument w a).1 ∧
    docPathKeys (generateOpenAPIDocument (routerUse w pr q d2) a).1
      = docPathKeys (generateOpenAPIDocument w a).1 := by
  constructor
  · have hdefs : (generateOpenAPIDocument (appUse w b p c) a).1
        = (generateOpenAPIDocument w a).1 := by
      simp [generateOpenAPIDocument, appUse, List.getElem?_set_ne (Ne.symm hab)]
    rw [hdefs]
  · have hdefs : (generateOpenAPIDocument (routerUse w pr q d2) a).1
        = (generateOpenAPIDocument w a).1 := by
      have hm := mountAdds_congr (routerUse w pr q d2).routers w.routers
        (fun i => routerUse_preserves_defs w pr q d2 i)
        ((w.apps.getD a default).mounts)
      simp only [generateOpenAPIDocument]
      rw [show (routerUse w pr q d2).apps = w.apps from rfl, hm]
    rw [hdefs]

/-- C6 witness: a concrete process with two applications; mounting into the
second (and into a router) leaves the first application's document untouched. -/
theorem mount_records_instance_scoped_witness :
    docPathKeys (generateOpenAPIDocument
        (appUse ⟨[⟨[.route "get" "/list"], []⟩], [⟨[], [("/a", 0)]⟩, ⟨[], []⟩]⟩ 1 "/b" 0) 0).1
      = docPathKeys (generateOpenAPIDocument
        (⟨[⟨[.route "get" "/list"], []⟩], [⟨[], [("/a", 0)]⟩, ⟨[], []⟩]⟩ : World) 0).1 ∧
    docPathKeys (generateOpenAPIDocument
        (routerUse ⟨[⟨[.route "get" "/list"], []⟩], [⟨[], [("/a", 0)]⟩, ⟨[], []⟩]⟩ 0 "/c" 0) 0).1
      = docPathKeys (generateOpenAPIDocument
        (⟨[⟨[.route "get" "/list"], []⟩], [⟨[], [("/a", 0)]⟩, ⟨[], []⟩]⟩ : World) 0).1 :=
  mount_records_instance_scoped
    ⟨[⟨[.route "get" "/list"], []⟩], [⟨[], [("/a", 0)]⟩, ⟨[], []⟩]⟩
    0 1 (by decide) "/b" "/c" 0 0 0

/-! ### Claim C8 — path-parameter translation -/

theorem takeWhile_append_stop (p : Char → Bool) (y : Char) (hy : p y = false) :
    ∀ (n t : List Char), (∀ x ∈ n, p x = true) →
      (n ++ y :: t).takeWhile p = n ∧ (n ++ y :: t).dropWhile p = y :: t
  | [], t, _ => by simp [List.takeWhile_cons, List.dropWhile_cons, hy]
  | x :: n, t, h => by
      have hx : p x = true := h x (List.mem_cons_self x n)
      have ih := takeWhile_append_stop p y hy n t (fun z hz => h z (List.mem_cons_of_mem x hz))
      simp [List.takeWhile_cons, List.dropWhile_cons, hx, ih.1, ih.2]

theorem wordChar_ne_rbrace (c : Char) (h : wordChar c = true) : (c ≠ '}' : Bool) = true := by
  have hne : c ≠ '}' := by
    intro hc
    subst hc
    exact absurd h (by decide)
  simpa using hne

theorem braceNames_translateGo : ∀ (n : Nat) (l : List Char), l.length ≤ n → '{' ∉ l →
    braceNamesAux (translateGo n l) = paramGo n l
  | 0, _, _, _ => by
      simp [translateGo, paramGo, braceNamesAux]
  | n + 1, [], _, _ => by
      simp [translateGo, paramGo, braceNamesAux]
  | n + 1, c :: rest, hlen, hmem => by
      by_cases hcond : paramMatch c rest = true
      · rw [show translateGo (n + 1) (c :: rest)
              = (if paramMatch c rest = true then
                  '{' :: (rest.takeWhile wordChar
                    ++ '}' :: translateGo n (rest.dropWhile wordChar))
                else c :: translateGo n rest) from rfl, if_pos hcond]
        have hname : ∀ x ∈ rest.takeWhile wordChar, (fun d => (d ≠ '}' : Bool)) x = true :=
          fun x hx => wordChar_ne_rbrace x (List.mem_takeWhile_imp hx)
        have hstop := takeWhile_append_stop (fun d => (d ≠ '}' : Bool)) '}' (by simp)
          (rest.takeWhile wordChar) (translateGo n (rest.dropWhile wordChar)) hname
        rw [braceNamesAux, if_pos rfl, hstop.1, hstop.2]
        rw [show paramGo (n + 1) (c :: rest)
              = (if paramMatch c rest = true then
                  rest.takeWhile wordChar :: paramGo n (rest.dropWhile wordChar)
                else paramGo n rest) from rfl, if_pos hcond]
        have hsub : '{' ∉ rest.dropWhile wordChar := fun hin =>
          hmem (List.mem_cons_of_mem c ((List.dropWhile_sublist wordChar).subset hin))
        have hlen2 : (rest.dropWhile wordChar).length ≤ n :=
          Nat.le_trans (List.Sublist.length_le (List.dropWhile_sublist _))
            (Nat.le_of_succ_le_succ hlen)
        simp [braceNames_translateGo n (rest.dropWhile wordChar) hlen2 hsub]
      · rw [show translateGo (n + 1) (c :: rest)
              = (if paramMatch c rest = true then
                  '{' :: (rest.takeWhile wordChar
                    ++ '}' :: translateGo n (rest.dropWhile wordChar))
                else c :: translateGo n rest) from rfl, if_neg hcond]
        have hc : (c = '{') = False := by
          simp only [eq_iff_iff, iff_false]
          exact fun hc => hmem (hc ▸ List.mem_cons_self c rest)
        rw [braceNamesAux, if_neg (by simp [hc])]
        rw [show paramGo (n + 1) (c :: rest)
              = (if paramMatch c rest = true then
                  rest.takeWhile wordChar :: paramGo n (rest.dropWhile wordChar)
                else paramGo n rest) from rfl, if_neg hcond]
        exact braceNames_translateGo n rest (Nat.le_of_succ_le_succ hlen)
          (fun hin => hmem (List.mem_cons_of_mem c hin))

/-- C8: the path-parameter translation is a bijection on the parameter names.
For every route path (whose framework syntax contains no literal brace), the
brace-delimited names of the registered OpenAPI path key are exactly the
`:name` / `*name` parameter names of the source path, in order and with
multiplicity — so every parameter name is preserved and distinct parameters
stay distinguished. -/
theorem openApiPath_param_bijection (p : String) (h : '{' ∉ p.data) :
    braceNames (openApiPath p) = paramNames p :=
  congrArg (List.map (fun l => (⟨l⟩ : String)))
    (braceNames_translateGo p.data.length p.data (Nat.le_refl _) h)

/-- C8 witness: `/users/:id` translates to `/users/{id}` and the parameter
names correspond exactly. -/
theorem openApiPath_param_bijection_witness :
    braceNames (openApiPath "/users/:id") = paramNames "/users/:id" ∧
    openApiPath "/users/:id" = "/users/\x7bid\x7d" ∧
    paramNames "/users/:id" = ["id"] :=
  ⟨openApiPath_param_bijection "/users/:id" (by decide), by decide, by decide⟩

/-! ### Claim C9 — options-first calling convention -/

/-- C9: an options-first call (plain options object first, at least one
further argument) whose options lack the `path` field throws synchronously:
no `createEndpoint` registration happens and nothing is delegated to the
native verb method. Any call matching neither enhanced convention is passed
through untouched to the native method (same argument list, no registration,
no throw). -/
theorem options_first_requires_path (method : String) (a2 : JsArg) (rest : List JsArg)
    (args : List JsArg)
    (hn1 : matchesCase1 args = false) (hn2 : matchesCase2 args = false) :
    enhancedCall method (.obj none :: a2 :: rest) = ⟨[], none, true⟩ ∧
    enhancedCall method args = ⟨[], some args, false⟩ := by
  constructor
  · rfl
  · match args, hn1, hn2 with
    | [], _, _ => rfl
    | [x], _, _ => cases x <;> rfl
    | .obj p :: a :: t, h1, _ => simp [matchesCase1] at h1
    | .str s1 :: .obj p :: a :: t, _, h2 => simp [matchesCase2] at h2
    | [.str s1, x], _, _ => cases x <;> rfl
    | .str s1 :: .arr :: a :: t, _, _ => rfl
    | .str s1 :: .regexp :: a :: t, _, _ => rfl
    | .str s1 :: .nullv :: a :: t, _, _ => rfl
    | .str s1 :: .str s2 :: a :: t, _, _ => rfl
    | .str s1 :: .func i :: a :: t, _, _ => rfl
    | .str s1 :: .middleware m2 p2 :: a :: t, _, _ => rfl
    | .arr :: a :: t, _, _ => rfl
    | .regexp :: a :: t, _, _ => rfl
    | .nullv :: a :: t, _, _ => rfl
    | .func i :: a :: t, _, _ => rfl
    | .middleware m2 p2 :: a :: t, _, _ => rfl

/-- C9 witness: a concrete options-first call without `path` throws before
registration or delegation, and a plain native call `get(handler)` passes
through untouched. -/
theorem options_first_requires_path_witness :
    enhancedCall "get" [.obj none, .func 0] = ⟨[], none, true⟩ ∧
    enhancedCall "get" [.func 0] = ⟨[], some [.func 0], false⟩ :=
  options_first_requires_path "get" (.func 0) [] [.func 0] (by decide) (by decide)

/-! ### Claim C5 — merge semantics for schemas and responses -/

/-- Left-biased choice on optional lookup results. -/
def orKV {α : Type} (x y : Option α) : Option α :=
  match x with
  | some v => some v
  | none => y

theorem findField_name : ∀ (l : ObjSchema) (n : String) (g : Field),
    findField l n = some g → g.name = n
  | [], _, _, h => by simp [findField] at h
  | f :: t, n, g, h => by
      by_cases hf : f.name = n
      · rw [findField, if_pos hf] at h
        exact (Option.some.inj h) ▸ hf
      · rw [findField, if_neg hf] at h
        exact findField_name t n g h

theorem findField_append : ∀ (xs ys : ObjSchema) (n : String),
    findField (xs ++ ys) n = orKV (findField xs n) (findField ys n)
  | [], ys, n => rfl
  | f :: t, ys, n => by
      by_cases hf : f.name = n
      · simp [findField, hf, orKV]
      · simp [findField, hf, findField_append t ys n]

theorem getD_findField_name (b : ObjSchema) (f : Field) :
    ((findField b f.name).getD f).name = f.name := by
  cases hb : findField b f.name with
  | none => rfl
  | some g => simpa using findField_name b f.name g hb

theorem findField_map (a : ObjSchema) (h : Field → Field)
    (hpres : ∀ f, (h f).name = f.name) (n : String) :
    findField (a.map h) n = (findField a n).map h := by
  induction a with
  | nil => rfl
  | cons f t ih =>
      by_cases hf : f.name = n
      · simp [findField, hpres f, hf]
      · simp [findField, hpres f, hf, ih]

theorem findField_filter (b : ObjSchema) (p : Field → Bool) (n : String)
    (hp : ∀ g : Field, g.name = n → p g = true) :
    findField (b.filter p) n = findField b n := by
  induction b with
  | nil => rfl
  | cons g t ih =>
      by_cases hg : g.name = n
      · have hpg : p g = true := hp g hg
        simp [List.filter_cons, hpg, findField, hg]
      · by_cases hpg : p g = true
        · simp [List.filter_cons, hpg, findField, hg, ih]
        · simp [List.filter_cons, hpg, findField, hg, ih]

/-- Lookup characterization of Zod `.merge`: the route (right) schema wins
for a field declared in both, the default (left) fills in the rest. -/
theorem findField_mergeObj (a b : ObjSchema) (n : String) :
    findField (mergeObj a b) n = orKV (findField b n) (findField a n) := by
  rw [mergeObj, findField_append]
  rw [findField_map a (fun f => (findField b f.name).getD f)
      (fun f => getD_findField_name b f) n]
  cases hb : findField b n with
  | some g =>
      cases ha : findField a n with
      | some f =>
          have hf : f.name = n := findField_name a n f ha
          simp [orKV, hf, hb]
      | none =>
          have hfil := findField_filter b (fun g => (findField a g.name).isNone) n
            (fun g hg => by simp [hg, ha])
          simp [orKV, hfil, hb]
  | none =>
      cases ha : findField a n with
      | some f =>
          have hf : f.name = n := findField_name a n f ha
          simp [orKV, hf, hb]
      | none =>
          have hfil := findField_filter b (fun g => (findField a g.name).isNone) n
            (fun g hg => by simp [hg, ha])
          simp [orKV, hfil, hb]

theorem lookupKV_append {α : Type} : ∀ (m1 m2 : List (String × α)) (n : String),
    lookupKV (m1 ++ m2) n = orKV (lookupKV m1 n) (lookupKV m2 n)
  | [], m2, n => rfl
  | (k, v) :: t, m2, n => by
      by_cases hk : k = n
      · simp [lookupKV, hk, orKV]
      · simp [lookupKV, hk, lookupKV_append t m2 n]

theorem lookupKV_eq_none_of_not_mem {α : Type} : ∀ (m : List (String × α)) (k : String),
    k ∉ m.map Prod.fst → lookupKV m k = none
  | [], _, _ => rfl
  | (k1, v1) :: t, k, h => by
      have h1 : ¬(k1 = k) := fun he => h (by simp [he])
      simp [lookupKV, h1,
        lookupKV_eq_none_of_not_mem t k (fun ht => h (List.mem_cons_of_mem _ ht))]

theorem lookupKV_map_setKey (k : String) (v : RespObj) :
    ∀ m : List (String × RespObj), m.any (fun p => p.1 = k) = true →
    lookupKV (m.map (fun p => if p.1 = k then (k, v) else p)) k = some v
  | [], h => by simp at h
  | (k1, v1) :: t, h => by
      by_cases hp : k1 = k
      · subst hp
        rw [List.map_cons, if_pos (show (k1, v1).1 = k1 from rfl), lookupKV, if_pos rfl]
      · have ht : t.any (fun q => q.1 = k) = true := by
          simpa [List.any_cons, hp] using h
        rw [List.map_cons, if_neg (show ¬((k1, v1).1 = k) from hp), lookupKV, if_neg hp]
        exact lookupKV_map_setKey k v t ht

theorem lookupKV_map_setKey_ne (k s : String) (v : RespObj) (hne : s ≠ k) :
    ∀ m : List (String × RespObj),
    lookupKV (m.map (fun p => if p.1 = k then (k, v) else p)) s = lookupKV m s
  | [] => rfl
  | (k1, v1) :: t => by
      by_cases hp : k1 = k
      · subst hp
        have hks : ¬(k1 = s) := fun he => hne he.symm
        rw [List.map_cons, if_pos (show (k1, v1).1 = k1 from rfl)]
        rw [lookupKV, if_neg hks]
        conv_rhs => rw [lookupKV]
        rw [if_neg hks]
        exact lookupKV_map_setKey_ne k1 s v hne t
      · rw [List.map_cons, if_neg (show ¬((k1, v1).1 = k) from hp)]
        rw [lookupKV]
        conv_rhs => rw [lookupKV]
        by_cases hps : k1 = s
        · rw [if_pos hps, if_pos hps]
        · rw [if_neg hps, if_neg hps]
          exact lookupKV_map_setKey_ne k s v hne t

theorem lookupKV_setKey_self (m : List (String × RespObj)) (k : String) (v : RespObj) :
    lookupKV (setKey m k v) k = some v := by
  rw [setKey]
  by_cases hany : m.any (fun p => p.1 = k) = true
  · rw [if_pos hany]
    exact lookupKV_map_setKey k v m hany
  · rw [if_neg hany, lookupKV_append]
    rw [lookupKV_eq_none_of_not_mem m k (fun hmem => hany (by
      simp only [List.any_eq_true]
      rcases List.mem_map.mp hmem with ⟨p, hpmem, hpk⟩
      exact ⟨p, hpmem, by simp [hpk]⟩))]
    simp [lookupKV, orKV]

theorem lookupKV_setKey_ne (m : List (String × RespObj)) (k s : String) (v : RespObj)
    (hne : s ≠ k) : lookupKV (setKey m k v) s = lookupKV m s := by
  rw [setKey]
  by_cases hany : m.any (fun p => p.1 = k) = true
  · rw [if_pos hany]
    exact lookupKV_map_setKey_ne k s v hne m
  · rw [if_neg hany, lookupKV_append]
    cases hm : lookupKV m s with
    | some w => simp [orKV]
    | none =>
        have hks : ¬(k = s) := fun he => hne he.symm
        simp [orKV, lookupKV, hks]

theorem lookupKV_foldl_setKey :
    ∀ (rs d : List (String × RespObj)) (s : String), (rs.map Prod.fst).Nodup →
    lookupKV (rs.foldl (fun acc kv => setKey acc kv.1 kv.2) d) s
      = orKV (lookupKV rs s) (lookupKV d s)
  | [], d, s, _ => by simp [lookupKV, orKV]
  | (k, v) :: t, d, s, hnd => by
      have hnd' : ((k, v) :: t).map Prod.fst = k :: t.map Prod.fst := by simp
      rw [hnd'] at hnd
      have hk : k ∉ t.map Prod.fst := (List.nodup_cons.mp hnd).1
      have hnd2 : (t.map Prod.fst).Nodup := (List.nodup_cons.mp hnd).2
      simp only [List.foldl_cons]
      rw [lookupKV_foldl_setKey t (setKey d k v) s hnd2]
      by_cases hs : s = k
      · subst hs
        have ht : lookupKV t s = none := lookupKV_eq_none_of_not_mem t s hk
        simp [lookupKV, orKV, ht, lookupKV_setKey_self]
      · have hks : ¬(k = s) := fun he => hs he.symm
        rw [lookupKV_setKey_ne d k s v hs]
        simp [lookupKV, orKV, hks]

/-- C5: merge semantics. For every field name, the effective (merged) query
and header schema resolves to the route-specific field definition when the
route declares one and to the registry default otherwise (last writer wins
per field); a route without a schema for a dimension gets the default alone.
The effective response map resolves each status code to the route-specific
response object when the route declares that status (a full replacement of
the default entry, since entries are opaque wholes) and to the default
response otherwise; a route without responses gets the defaults alone. -/
theorem merge_semantics :
    (∀ (dq q : ObjSchema) (n : String),
       findField (mergedQuerySchema dq (some q)) n
         = orKV (findField q n) (findField dq n)) ∧
    (∀ dq : ObjSchema, mergedQuerySchema dq none = dq) ∧
    (∀ (dh h : ObjSchema) (n : String),
       findField (mergedHeaderSchema dh (some h)) n
         = orKV (findField h n) (findField dh n)) ∧
    (∀ dh : ObjSchema, mergedHeaderSchema dh none = dh) ∧
    (∀ (dr rr : List (String × RespObj)) (s : String), (rr.map Prod.fst).Nodup →
       lookupKV (mergedResponses dr (some rr)) s
         = orKV (lookupKV rr s) (lookupKV dr s)) ∧
    (∀ dr : List (String × RespObj), mergedResponses dr none = dr) := by
  refine ⟨?_, fun _ => rfl, ?_, fun _ => rfl, ?_, fun _ => rfl⟩
  · exact fun dq q n => findField_mergeObj dq q n
  · exact fun dh h n => findField_mergeObj dh h n
  · exact fun dr rr s hnd => lookupKV_foldl_setKey rr dr s hnd

/-- C5 witness: with a default query schema declaring `format` and a route
schema redeclaring `format` and adding `limit`, the merged schema resolves
`format` to the route's definition and keeps the default elsewhere; a route
response for status 400 fully replaces the default 400 entry. -/
theorem merge_semantics_witness :
    findField (mergedQuerySchema [⟨"format", .isStr, false⟩]
        (some [⟨"format", .coerceNum, false⟩, ⟨"limit", .coerceNum, true⟩])) "format"
      = some ⟨"format", .coerceNum, false⟩ ∧
    lookupKV (mergedResponses [("400", ⟨"default bad request"⟩)]
        (some [("400", ⟨"route bad request"⟩)])) "400"
      = some ⟨"route bad request"⟩ := by
  constructor
  · rw [merge_semantics.1 [⟨"format", .isStr, false⟩]
      [⟨"format", .coerceNum, false⟩, ⟨"limit", .coerceNum, true⟩] "format"]
    decide
  · rw [merge_semantics.2.2.2.2.1 [("400", ⟨"default bad request"⟩)]
      [("400", ⟨"route bad request"⟩)] "400" (by decide)]
    decide

/-! ### Validation middleware lemmas (used by C3, C4, C10) -/

/-- The body-dimension check as the middleware performs it: an absent body
schema skips validation, succeeding with the raw body. -/
def bodyCheck (bodyS : Option SchemaF) (v : Val) : Except (List String) Val :=
  match bodyS with
  | none => .ok v
  | some bs => evalS bs v

/-- The params-dimension check: an absent params schema skips validation. -/
def objCheck (os : Option ObjSchema) (m : List (String × Val)) :
    Except (List String) (List (String × Val)) :=
  match os with
  | none => .ok m
  | some s => parseObj s m

theorem evalS_error_ne_nil (s : SchemaF) (v : Val) (e : List String)
    (h : evalS s v = .error e) : e ≠ [] := by
  intro hnil
  subst hnil
  cases s with
  | anyV => simp [evalS] at h
  | isStr => cases v <;> simp [evalS] at h
  | isNum => cases v <;> simp [evalS] at h
  | coerceNum =>
      cases v with
      | vstr str => rcases hti : strToInt? str with _ | n <;> simp [evalS, hti] at h
      | vnum n => simp [evalS] at h
      | vnull => simp [evalS] at h
  | failWith m => simp [evalS] at h

theorem parseObj_error_ne_nil (s : ObjSchema) (input : List (String × Val))
    (e : List String) (h : parseObj s input = .error e) : e ≠ [] := by
  simp only [parseObj] at h
  split at h
  · exact absurd h (by simp)
  · rename_i hres
    intro hnil
    subst hnil
    have h2 : (parseFields s input).1 = [] := Except.error.inj h
    exact hres (by rw [h2]; rfl)

theorem bodyCheck_error_ne_nil (ob : Option SchemaF) (v : Val) (e : List String)
    (h : bodyCheck ob v = .error e) : e ≠ [] := by
  cases ob with
  | none => simp [bodyCheck] at h
  | some bs => exact evalS_error_ne_nil bs v e h

theorem objCheck_error_ne_nil (os : Option ObjSchema) (m : List (String × Val))
    (e : List String) (h : objCheck os m = .error e) : e ≠ [] := by
  cases os with
  | none => simp [objCheck] at h
  | some s => exact parseObj_error_ne_nil s m e h

theorem initParsed_body (req : Req) : (initParsed req).body = req.body := by
  cases hp : req.parsed <;> simp [initParsed, hp]

theorem initParsed_params (req : Req) : (initParsed req).params = req.params := by
  cases hp : req.parsed <;> simp [initParsed, hp]

theorem initParsed_query (req : Req) : (initParsed req).query = req.query := by
  cases hp : req.parsed <;> simp [initParsed, hp]

theorem initParsed_headers (req : Req) : (initParsed req).headers = req.headers := by
  cases hp : req.parsed <;> simp [initParsed, hp]

theorem stepBody_error (ob : Option SchemaF) (req : Req) (e : List String)
    (h : bodyCheck ob req.body = .error e) : stepBody ob req = .error (e, req) := by
  cases ob with
  | none => simp [bodyCheck] at h
  | some bs =>
      simp only [bodyCheck] at h
      simp [stepBody, h]

theorem stepBody_ok (ob : Option SchemaF) (req : Req) (v : Val)
    (h : bodyCheck ob req.body = .ok v) :
    ∃ r, stepBody ob req = .ok r ∧ r.params = req.params ∧ r.query = req.query
      ∧ r.headers = req.headers := by
  cases ob with
  | none => exact ⟨req, rfl, rfl, rfl, rfl⟩
  | some bs =>
      simp only [bodyCheck] at h
      exact ⟨{ req with body := v, parsed := some { (req.parsed.getD default) with body := v } },
        by simp [stepBody, h], rfl, rfl, rfl⟩

theorem stepParams_error (op : Option ObjSchema) (req : Req) (e : List String)
    (h : objCheck op req.params = .error e) : stepParams op req = .error (e, req) := by
  cases op with
  | none => simp [objCheck] at h
  | some ps =>
      simp only [objCheck] at h
      simp [stepParams, h]

theorem stepParams_ok (op : Option ObjSchema) (req : Req) (v : List (String × Val))
    (h : objCheck op req.params = .ok v) :
    ∃ r, stepParams op req = .ok r ∧ r.query = req.query ∧ r.headers = req.headers := by
  cases op with
  | none => exact ⟨req, rfl, rfl, rfl⟩
  | some ps =>
      simp only [objCheck] at h
      exact ⟨{ req with params := jsExtend req.params v, parsed := some { (req.parsed.getD default) with params := v } }, by simp [stepParams, h], rfl, rfl⟩

theorem stepQuery_error (mq : ObjSchema) (req : Req) (e : List String)
    (h : parseObj mq req.query = .error e) : stepQuery mq req = .error (e, req) := by
  simp [stepQuery, h]

theorem stepQuery_ok (mq : ObjSchema) (req : Req) (v : List (String × Val))
    (h : parseObj mq req.query = .ok v) :
    stepQuery mq req = .ok { req with query := jsExtend req.query v,
                                      parsed := some { (req.parsed.getD default) with query := v } } := by
  simp [stepQuery, h]

theorem stepHeaders_error (mh : ObjSchema) (req : Req) (e : List String)
    (h : parseObj (allOptional mh) req.headers = .error e) :
    stepHeaders mh req = .error (e, req) := by
  simp [stepHeaders, h]

theorem stepHeaders_ok (mh : ObjSchema) (req : Req) (v : List (String × Val))
    (h : parseObj (allOptional mh) req.headers = .ok v) :
    stepHeaders mh req = .ok { req with headers := jsExtend req.headers v,
                                        parsed := some { (req.parsed.getD default) with headers := v } } := by
  simp [stepHeaders, h]

theorem stepQuery_ok_ex (mq : ObjSchema) (req : Req) (v : List (String × Val))
    (h : parseObj mq req.query = .ok v) :
    ∃ r, stepQuery mq req = .ok r ∧ r.headers = req.headers :=
  ⟨_, stepQuery_ok mq req v h, rfl⟩

theorem stepHeaders_ok_ex (mh : ObjSchema) (req : Req) (v : List (String × Val))
    (h : parseObj (allOptional mh) req.headers = .ok v) :
    ∃ r, stepHeaders mh req = .ok r ∧ r.headers = jsExtend req.headers v :=
  ⟨_, stepHeaders_ok mh req v h, rfl⟩

/-! ### Claim C3 — validation order and failure contract -/

/-- C3: the middleware validates the dimensions in the fixed order body,
params, query, headers over the incoming request's fields; the first failing
dimension aborts the step with status 400 and exactly that dimension's
(non-empty) issue list as the error payload — later dimensions contribute
nothing — and the result is an error diverted to the error path, never a
`next` that would reach the user handler; when every dimension passes,
control passes to the next handler. -/
theorem validation_order_first_failure (d : RegistryDefaults) (ob : Option SchemaF)
    (op oq oh : Option ObjSchema) (req : Req) :
    (∀ e, bodyCheck ob req.body = .error e →
       (∃ r, endpointMiddleware d ⟨ob, op, oq, oh, none, none⟩ req = .err 400 e r)
         ∧ e ≠ []) ∧
    (∀ bv e, bodyCheck ob req.body = .ok bv →
       objCheck op req.params = .error e →
       (∃ r, endpointMiddleware d ⟨ob, op, oq, oh, none, none⟩ req = .err 400 e r)
         ∧ e ≠ []) ∧
    (∀ bv pv e, bodyCheck ob req.body = .ok bv → objCheck op req.params = .ok pv →
       parseObj (mergedQuerySchema d.defaultQuerySchema oq) req.query = .error e →
       (∃ r, endpointMiddleware d ⟨ob, op, oq, oh, none, none⟩ req = .err 400 e r)
         ∧ e ≠ []) ∧
    (∀ bv pv qv e, bodyCheck ob req.body = .ok bv → objCheck op req.params = .ok pv →
       parseObj (mergedQuerySchema d.defaultQuerySchema oq) req.query = .ok qv →
       parseObj (allOptional (mergedHeaderSchema d.defaultHeaderSchema oh)) req.headers
         = .error e →
       (∃ r, endpointMiddleware d ⟨ob, op, oq, oh, none, none⟩ req = .err 400 e r)
         ∧ e ≠ []) ∧
    (∀ bv pv qv hv, bodyCheck ob req.body = .ok bv → objCheck op req.params = .ok pv →
       parseObj (mergedQuerySchema d.defaultQuerySchema oq) req.query = .ok qv →
       parseObj (allOptional (mergedHeaderSchema d.defaultHeaderSchema oh)) req.headers
         = .ok hv →
       ∃ r, endpointMiddleware d ⟨ob, op, oq, oh, none, none⟩ req = .next r) := by
  refine ⟨?_, ?_, ?_, ?_, ?_⟩
  · intro e hb
    have hb1 : bodyCheck ob (initParsed req).body = .error e := by
      rw [initParsed_body]
      exact hb
    refine ⟨⟨initParsed req, ?_⟩, bodyCheck_error_ne_nil ob req.body e hb⟩
    simp [endpointMiddleware, runSteps, stepBody_error ob (initParsed req) e hb1]
  · intro bv e hb hp
    have hb1 : bodyCheck ob (initParsed req).body = .ok bv := by
      rw [initParsed_body]
      exact hb
    obtain ⟨r2, hr2, hr2p, hr2q, hr2h⟩ := stepBody_ok ob (initParsed req) bv hb1
    have hp1 : objCheck op r2.params = .error e := by
      rw [hr2p, initParsed_params]
      exact hp
    refine ⟨⟨r2, ?_⟩, objCheck_error_ne_nil op req.params e hp⟩
    simp [endpointMiddleware, runSteps, hr2, stepParams_error op r2 e hp1]
  · intro bv pv e hb hp hq
    have hb1 : bodyCheck ob (initParsed req).body = .ok bv := by
      rw [initParsed_body]
      exact hb
    obtain ⟨r2, hr2, hr2p, hr2q, hr2h⟩ := stepBody_ok ob (initParsed req) bv hb1
    have hp1 : objCheck op r2.params = .ok pv := by
      rw [hr2p, initParsed_params]
      exact hp
    obtain ⟨r3, hr3, hr3q, hr3h⟩ := stepParams_ok op r2 pv hp1
    have hq1 : parseObj (mergedQuerySchema d.defaultQuerySchema oq) r3.query = .error e := by
      rw [hr3q, hr2q, initParsed_query]
      exact hq
    refine ⟨⟨r3, ?_⟩,
      parseObj_error_ne_nil (mergedQuerySchema d.defaultQuerySchema oq) req.query e hq⟩
    simp [endpointMiddleware, runSteps, hr2, hr3,
      stepQuery_error (mergedQuerySchema d.defaultQuerySchema oq) r3 e hq1]
  · intro bv pv qv e hb hp hq hh
    have hb1 : bodyCheck ob (initParsed req).body = .ok bv := by
      rw [initParsed_body]
      exact hb
    obtain ⟨r2, hr2, hr2p, hr2q, hr2h⟩ := stepBody_ok ob (initParsed req) bv hb1
    have hp1 : objCheck op r2.params = .ok pv := by
      rw [hr2p, initParsed_params]
      exact hp
    obtain ⟨r3, hr3, hr3q, hr3h⟩ := stepParams_ok op r2 pv hp1
    have hq1 : parseObj (mergedQuerySchema d.defaultQuerySchema oq) r3.query = .ok qv := by
      rw [hr3q, hr2q, initParsed_query]
      exact hq
    obtain ⟨r4, hr4, hr4h⟩ := stepQuery_ok_ex (mergedQuerySchema d.defaultQuerySchema oq) r3 qv hq1
    have hh1 : parseObj (allOptional (mergedHeaderSchema d.defaultHeaderSchema oh))
        (r4.headers) = .error e := by
      rw [hr4h, hr3h, hr2h, initParsed_headers]
      exact hh
    refine ⟨⟨r4, ?_⟩, parseObj_error_ne_nil _ req.headers e hh⟩
    simp [endpointMiddleware, runSteps, hr2, hr3, hr4,
      stepHeaders_error (mergedHeaderSchema d.defaultHeaderSchema oh) r4 e hh1]
  · intro bv pv qv hv hb hp hq hh
    have hb1 : bodyCheck ob (initParsed req).body = .ok bv := by
      rw [initParsed_body]
      exact hb
    obtain ⟨r2, hr2, hr2p, hr2q, hr2h⟩ := stepBody_ok ob (initParsed req) bv hb1
    have hp1 : objCheck op r2.params = .ok pv := by
      rw [hr2p, initParsed_params]
      exact hp
    obtain ⟨r3, hr3, hr3q, hr3h⟩ := stepParams_ok op r2 pv hp1
    have hq1 : parseObj (mergedQuerySchema d.defaultQuerySchema oq) r3.query = .ok qv := by
      rw [hr3q, hr2q, initParsed_query]
      exact hq
    obtain ⟨r4, hr4, hr4h⟩ := stepQuery_ok_ex (mergedQuerySchema d.defaultQuerySchema oq) r3 qv hq1
    have hh1 : parseObj (allOptional (mergedHeaderSchema d.defaultHeaderSchema oh))
        (r4.headers) = .ok hv := by
      rw [hr4h, hr3h, hr2h, initParsed_headers]
      exact hh
    obtain ⟨r5, hr5, hr5h⟩ := stepHeaders_ok_ex (mergedHeaderSchema d.defaultHeaderSchema oh) r4 hv hh1
    refine ⟨r5, ?_⟩
    simp [endpointMiddleware, runSteps, hr2, hr3, hr4, hr5]

/-- C3 witness: a route with a numeric body schema and a params schema; a
request whose body is a string fails the body dimension first, aborting with
status 400 and the body issue list only, even though the params would also
fail. -/
theorem validation_order_first_failure_witness :
    (∃ r, endpointMiddleware ⟨[], [], []⟩
        ⟨some .isNum, some [⟨"id", .isNum, false⟩], none, none, none, none⟩
        ⟨.vstr "oops", [], [], [], none⟩ = .err 400 ["Expected number"] r)
      ∧ ["Expected number"] ≠ [] :=
  (validation_order_first_failure ⟨[], [], []⟩ (some .isNum)
    (some [⟨"id", .isNum, false⟩]) none none ⟨.vstr "oops", [], [], [], none⟩).1
    ["Expected number"] (by rfl)

/-! ### Claim C4 — query/header validation always runs; headers are partial -/

theorem parseFields_allOptional_nil : ∀ s : ObjSchema,
    parseFields (allOptional s) [] = ([], [])
  | [] => rfl
  | f :: t => by
      have ih := parseFields_allOptional_nil t
      simp only [allOptional] at ih ⊢
      simp [parseFields, lookupKV, ih]

theorem parseObj_allOptional_nil (s : ObjSchema) :
    parseObj (allOptional s) [] = .ok [] := by
  simp [parseObj, parseFields_allOptional_nil s]

theorem parseFields_fail_of_field : ∀ (s : ObjSchema) (input : List (String × Val))
    (f : Field) (v : Val) (e0 : List String),
    f ∈ s → lookupKV input f.name = some v → evalS f.sch v = .error e0 →
    (parseFields s input).1 ≠ []
  | [], _, _, _, _, hf, _, _ => by simp at hf
  | g :: t, input, f, v, e0, hf, hlook, heval => by
      rcases List.mem_cons.mp hf with hgf | hft
      · subst hgf
        have he0 := evalS_error_ne_nil f.sch v e0 heval
        simp only [parseFields, hlook, heval]
        intro hc
        rcases List.append_eq_nil.mp hc with ⟨h1, _⟩
        exact he0 h1
      · have ih := parseFields_fail_of_field t input f v e0 hft hlook heval
        simp only [parseFields]
        cases hl : lookupKV input g.name with
        | none =>
            by_cases ho : g.opt
            · simpa [hl, ho] using ih
            · simp [hl, ho]
        | some w =>
            cases hev : evalS g.sch w with
            | ok w2 => simpa [hl, hev] using ih
            | error e2 =>
                simp only [hl, hev]
                intro hc
                rcases List.append_eq_nil.mp hc with ⟨_, h2⟩
                exact ih h2

theorem parseObj_fail_of_field (s : ObjSchema) (input : List (String × Val))
    (f : Field) (v : Val) (e0 : List String) (hf : f ∈ s)
    (hl : lookupKV input f.name = some v) (he : evalS f.sch v = .error e0) :
    ∃ e, parseObj s input = .error e ∧ e ≠ [] := by
  have h1 := parseFields_fail_of_field s input f v e0 hf hl he
  refine ⟨(parseFields s input).1, ?_, h1⟩
  simp only [parseObj]
  rw [if_neg (by simpa using h1)]

theorem parseObj_ok_out (s : ObjSchema) (input : List (String × Val))
    (hv : List (String × Val)) (h : parseObj s input = .ok hv) :
    hv = (parseFields s input).2 := by
  simp only [parseObj] at h
  split at h
  · exact (Except.ok.inj h).symm
  · exact absurd h (by simp)

theorem lookupKV_parseFields_none : ∀ (s : ObjSchema) (input : List (String × Val))
    (k : String), (∀ f ∈ s, f.name ≠ k) →
    lookupKV (parseFields s input).2 k = none
  | [], _, _, _ => rfl
  | g :: t, input, k, h => by
      have hg : ¬(g.name = k) := h g (List.mem_cons_self g t)
      have ih := lookupKV_parseFields_none t input k
        (fun f hf => h f (List.mem_cons_of_mem g hf))
      simp only [parseFields]
      cases hl : lookupKV input g.name with
      | none => by_cases ho : g.opt <;> simp [hl, ho, ih]
      | some w =>
          cases hev : evalS g.sch w with
          | ok w2 => simp [hl, hev, lookupKV, hg, ih]
          | error e2 => simp [hl, hev, ih]

theorem lookupKV_extendMap (s : List (String × Val)) (k : String) :
    ∀ t : List (String × Val),
    lookupKV (t.map (fun kv => ((kv.1, (lookupKV s kv.1).getD kv.2) : String × Val))) k
      = (lookupKV t k).map (fun v => (lookupKV s k).getD v)
  | [] => rfl
  | (k1, v1) :: t => by
      by_cases hk : k1 = k
      · subst hk
        simp [List.map_cons, lookupKV]
      · simp [List.map_cons, lookupKV, hk, lookupKV_extendMap s k t]

theorem lookupKV_filter_keep {α : Type} (p : String × α → Bool) (k : String)
    (hp : ∀ kv : String × α, kv.1 = k → p kv = true) :
    ∀ s2 : List (String × α), lookupKV (s2.filter p) k = lookupKV s2 k
  | [] => rfl
  | (k1, v1) :: t => by
      by_cases hk : k1 = k
      · have hpk : p (k1, v1) = true := hp (k1, v1) hk
        subst hk
        simp [List.filter_cons, hpk, lookupKV]
      · by_cases hpk : p (k1, v1) = true
        · simp [List.filter_cons, hpk, lookupKV, hk, lookupKV_filter_keep p k hp t]
        · simp [List.filter_cons, hpk, lookupKV, hk, lookupKV_filter_keep p k hp t]

/-- Lookup characterization of `extend` / object spread: the source wins
where it has a key, the target's binding survives everywhere else. -/
theorem lookupKV_jsExtend (t s : List (String × Val)) (k : String) :
    lookupKV (jsExtend t s) k = orKV (lookupKV s k) (lookupKV t k) := by
  rw [jsExtend, lookupKV_append, lookupKV_extendMap s k t]
  cases ht : lookupKV t k with
  | some v => cases hs : lookupKV s k <;> simp [orKV, hs]
  | none =>
      rw [lookupKV_filter_keep (fun kv => (lookupKV t kv.1).isNone) k
        (fun kv hkv => by simp [hkv, ht]) s]
      cases hs : lookupKV s k <;> simp [orKV]

/-- C4: query and header validation always run for an enhanced route. With a
route declaring no schema of its own, the registry default query schema alone
rejects a bad query with status 400, and the default header schema alone —
applied partially — rejects a declared header of the wrong shape with status
400; a request carrying no headers at all still passes header validation
because `.partial()` makes every declared header optional; for any route
header schema, a declared header present with the wrong shape fails with a
non-empty 400 error; and on success, header keys not declared in the merged
header schema pass through to the final request untouched. -/
theorem query_header_always_validated (d : RegistryDefaults) (req : Req) :
    (∀ e, parseObj d.defaultQuerySchema req.query = .error e →
       (∃ r, endpointMiddleware d ⟨none, none, none, none, none, none⟩ req = .err 400 e r)
         ∧ e ≠ []) ∧
    (∀ qv e, parseObj d.defaultQuerySchema req.query = .ok qv →
       parseObj (allOptional d.defaultHeaderSchema) req.headers = .error e →
       (∃ r, endpointMiddleware d ⟨none, none, none, none, none, none⟩ req = .err 400 e r)
         ∧ e ≠ []) ∧
    (∀ qv, parseObj d.defaultQuerySchema req.query = .ok qv → req.headers = [] →
       ∃ r, endpointMiddleware d ⟨none, none, none, none, none, none⟩ req = .next r) ∧
    (∀ (oh : Option ObjSchema) (qv : List (String × Val)) (f : Field) (v : Val)
       (e0 : List String),
       parseObj d.defaultQuerySchema req.query = .ok qv →
       f ∈ mergedHeaderSchema d.defaultHeaderSchema oh →
       lookupKV req.headers f.name = some v →
       evalS f.sch v = .error e0 →
       ∃ e r, endpointMiddleware d ⟨none, none, none, oh, none, none⟩ req = .err 400 e r
         ∧ e ≠ []) ∧
    (∀ (oh : Option ObjSchema) (qv hv : List (String × Val)) (k : String),
       parseObj d.defaultQuerySchema req.query = .ok qv →
       parseObj (allOptional (mergedHeaderSchema d.defaultHeaderSchema oh)) req.headers
         = .ok hv →
       (∀ f ∈ mergedHeaderSchema d.defaultHeaderSchema oh, f.name ≠ k) →
       ∃ r, endpointMiddleware d ⟨none, none, none, oh, none, none⟩ req = .next r
         ∧ lookupKV r.headers k = lookupKV req.headers k) := by
  refine ⟨?_, ?_, ?_, ?_, ?_⟩
  · intro e hq
    have hq1 : parseObj d.defaultQuerySchema (initParsed req).query = .error e := by
      rw [initParsed_query]
      exact hq
    refine ⟨⟨initParsed req, ?_⟩, parseObj_error_ne_nil _ req.query e hq⟩
    simp [endpointMiddleware, runSteps, stepBody, stepParams, mergedQuerySchema,
      stepQuery_error d.defaultQuerySchema (initParsed req) e hq1]
  · intro qv e hq hh
    have hq1 : parseObj d.defaultQuerySchema (initParsed req).query = .ok qv := by
      rw [initParsed_query]
      exact hq
    obtain ⟨r4, hr4, hr4h⟩ := stepQuery_ok_ex d.defaultQuerySchema (initParsed req) qv hq1
    have hh1 : parseObj (allOptional d.defaultHeaderSchema) r4.headers = .error e := by
      rw [hr4h, initParsed_headers]
      exact hh
    refine ⟨⟨r4, ?_⟩, parseObj_error_ne_nil _ req.headers e hh⟩
    simp [endpointMiddleware, runSteps, stepBody, stepParams, mergedQuerySchema,
      mergedHeaderSchema, hr4, stepHeaders_error d.defaultHeaderSchema r4 e hh1]
  · intro qv hq hhnil
    have hq1 : parseObj d.defaultQuerySchema (initParsed req).query = .ok qv := by
      rw [initParsed_query]
      exact hq
    obtain ⟨r4, hr4, hr4h⟩ := stepQuery_ok_ex d.defaultQuerySchema (initParsed req) qv hq1
    have hh1 : parseObj (allOptional d.defaultHeaderSchema) r4.headers = .ok [] := by
      rw [hr4h, initParsed_headers, hhnil]
      exact parseObj_allOptional_nil d.defaultHeaderSchema
    obtain ⟨r5, hr5, hr5h⟩ := stepHeaders_ok_ex d.defaultHeaderSchema r4 [] hh1
    refine ⟨r5, ?_⟩
    simp [endpointMiddleware, runSteps, stepBody, stepParams, mergedQuerySchema,
      mergedHeaderSchema, hr4, hr5]
  · intro oh qv f v e0 hq hf hl he
    have hfopt : ({ f with opt := true } : Field)
        ∈ allOptional (mergedHeaderSchema d.defaultHeaderSchema oh) :=
      List.mem_map_of_mem (fun g => { g with opt := true }) hf
    obtain ⟨e, he2, hene⟩ := parseObj_fail_of_field
      (allOptional (mergedHeaderSchema d.defaultHeaderSchema oh)) req.headers
      ({ f with opt := true }) v e0 hfopt hl he
    have hq1 : parseObj d.defaultQuerySchema (initParsed req).query = .ok qv := by
      rw [initParsed_query]
      exact hq
    obtain ⟨r4, hr4, hr4h⟩ := stepQuery_ok_ex d.defaultQuerySchema (initParsed req) qv hq1
    have hh1 : parseObj (allOptional (mergedHeaderSchema d.defaultHeaderSchema oh))
        r4.headers = .error e := by
      rw [hr4h, initParsed_headers]
      exact he2
    refine ⟨e, r4, ?_, hene⟩
    simp [endpointMiddleware, runSteps, stepBody, stepParams, mergedQuerySchema,
      hr4, stepHeaders_error (mergedHeaderSchema d.defaultHeaderSchema oh) r4 e hh1]
  · intro oh qv hv k hq hh hknot
    have hq1 : parseObj d.defaultQuerySchema (initParsed req).query = .ok qv := by
      rw [initParsed_query]
      exact hq
    obtain ⟨r4, hr4, hr4h⟩ := stepQuery_ok_ex d.defaultQuerySchema (initParsed req) qv hq1
    have hh1 : parseObj (allOptional (mergedHeaderSchema d.defaultHeaderSchema oh))
        r4.headers = .ok hv := by
      rw [hr4h, initParsed_headers]
      exact hh
    obtain ⟨r5, hr5, hr5h⟩ := stepHeaders_ok_ex
      (mergedHeaderSchema d.defaultHeaderSchema oh) r4 hv hh1
    refine ⟨r5, ?_, ?_⟩
    · simp [endpointMiddleware, runSteps, stepBody, stepParams, mergedQuerySchema,
        hr4, hr5]
    · have hvout := parseObj_ok_out _ req.headers hv hh
      have hvnone : lookupKV hv k = none := by
        rw [hvout]
        exact lookupKV_parseFields_none
          (allOptional (mergedHeaderSchema d.defaultHeaderSchema oh)) req.headers k
          (fun f2 hf2 => by
            rcases List.mem_map.mp hf2 with ⟨g, hg, hgeq⟩
            rw [← hgeq]
            exact hknot g hg)
      rw [hr5h, hr4h, initParsed_headers, lookupKV_jsExtend, hvnone]
      rfl

/-- C4 witness: default query schema requires `format`, default header schema
declares `x-api-key` as a string. A request without the query field is
rejected with the default schema's issue even though the route declared no
query schema; a request with a good query and no headers passes (partial
headers); a request with a numeric `x-api-key` is rejected. -/
theorem query_header_always_validated_witness :
    ((∃ r, endpointMiddleware ⟨[⟨"format", .isStr, false⟩], [⟨"x-api-key", .isStr, false⟩], []⟩
        ⟨none, none, none, none, none, none⟩ ⟨.vnull, [], [], [], none⟩ = .err 400
        ["Required: format"] r) ∧ ["Required: format"] ≠ []) ∧
    (∃ r, endpointMiddleware ⟨[⟨"format", .isStr, false⟩], [⟨"x-api-key", .isStr, false⟩], []⟩
        ⟨none, none, none, none, none, none⟩
        ⟨.vnull, [], [("format", .vstr "json")], [], none⟩ = .next r) ∧
    (∃ e r, endpointMiddleware ⟨[⟨"format", .isStr, false⟩], [⟨"x-api-key", .isStr, false⟩], []⟩
        ⟨none, none, none, none, none, none⟩
        ⟨.vnull, [], [("format", .vstr "json")], [("x-api-key", .vnum 7)], none⟩
        = .err 400 e r ∧ e ≠ []) := by
  refine ⟨?_, ?_, ?_⟩
  · exact (query_header_always_validated
      ⟨[⟨"format", .isStr, false⟩], [⟨"x-api-key", .isStr, false⟩], []⟩
      ⟨.vnull, [], [], [], none⟩).1 ["Required: format"] (by rfl)
  · exact (query_header_always_validated
      ⟨[⟨"format", .isStr, false⟩], [⟨"x-api-key", .isStr, false⟩], []⟩
      ⟨.vnull, [], [("format", .vstr "json")], [], none⟩).2.2.1
      [("format", .vstr "json")] (by rfl) (by rfl)
  · exact (query_header_always_validated
      ⟨[⟨"format", .isStr, false⟩], [⟨"x-api-key", .isStr, false⟩], []⟩
      ⟨.vnull, [], [("format", .vstr "json")], [("x-api-key", .vnum 7)], none⟩).2.2.2.1
      none [("format", .vstr "json")] ⟨"x-api-key", .isStr, false⟩ (.vnum 7)
      ["Expected string"] (by rfl) (by decide) (by rfl) (by rfl)

/-! ### Claim C10 — mutations of earlier dimensions persist on failure -/

/-- C10: when a later dimension fails, the request handed to the error path
keeps every mutation made by the dimensions that already succeeded — no
rollback happens. For a fresh request (no pre-existing `parsed`): if the body
parses and the params fail, the error request carries the parsed body in
`req.body` and in `parsed.body` while the remaining fields are untouched; if
body, params and query all pass and the headers fail, the error request
carries the parsed body, the parsed params merged into `req.params`, the
parsed query merged into `req.query`, and the corresponding overwritten
`parsed` fields. -/
theorem no_rollback_on_failure (d : RegistryDefaults) (bs : SchemaF) (ps : ObjSchema)
    (oq oh : Option ObjSchema) (req : Req) (hp0 : req.parsed = none) :
    (∀ bv e, evalS bs req.body = .ok bv → parseObj ps req.params = .error e →
       endpointMiddleware d ⟨some bs, some ps, oq, oh, none, none⟩ req
         = .err 400 e { body := bv, params := req.params, query := req.query,
                        headers := req.headers,
                        parsed := some ⟨bv, req.params, req.query, req.headers⟩ }) ∧
    (∀ bv pv qv e, evalS bs req.body = .ok bv → parseObj ps req.params = .ok pv →
       parseObj (mergedQuerySchema d.defaultQuerySchema oq) req.query = .ok qv →
       parseObj (allOptional (mergedHeaderSchema d.defaultHeaderSchema oh)) req.headers
         = .error e →
       endpointMiddleware d ⟨some bs, some ps, oq, oh, none, none⟩ req
         = .err 400 e { body := bv, params := jsExtend req.params pv,
                        query := jsExtend req.query qv, headers := req.headers,
                        parsed := some ⟨bv, pv, qv, req.headers⟩ }) := by
  constructor
  · intro bv e hb hpa
    simp [endpointMiddleware, runSteps, initParsed, hp0, stepBody, stepParams, hb, hpa]
  · intro bv pv qv e hb hpa hq hh
    simp [endpointMiddleware, runSteps, initParsed, hp0, stepBody, stepParams, stepQuery,
      stepHeaders, hb, hpa, hq, hh]

/-- C10 witness: the body coerces `"5"` to the number 5 and the params then
fail; the error request keeps the coerced body (raw and parsed) with no
rollback to the pre-validation state. -/
theorem no_rollback_on_failure_witness :
    endpointMiddleware ⟨[], [], []⟩
      ⟨some .coerceNum, some [⟨"id", .isNum, false⟩], none, none, none, none⟩
      ⟨.vstr "5", [("x", .vstr "y")], [], [], none⟩
      = .err 400 ["Required: id"]
          ⟨.vnum 5, [("x", .vstr "y")], [], [],
            some ⟨.vnum 5, [("x", .vstr "y")], [], []⟩⟩ :=
  (no_rollback_on_failure ⟨[], [], []⟩ .coerceNum [⟨"id", .isNum, false⟩] none none
    ⟨.vstr "5", [("x", .vstr "y")], [], [], none⟩ rfl).1 (.vnum 5) ["Required: id"]
    (by rfl) (by rfl)

end PlusExpress
